import Mathlib

/-!
Verification development for the `WebsiteCloner` pipeline of
`Clone-CLI-project` (`src/index.js`).

The JavaScript source is shallowly embedded below:

* character-list models of the Node `path` helpers the code calls
  (`path.extname`, `path.join`, `path.dirname`, `path.relative`);
* a simplified executable model of WHATWG URL parsing/resolution
  (`new URL(ref, base)`) covering the constructs the cloner uses:
  absolute `http`/`https` URLs, protocol-relative, root-relative and
  path-relative references, query and fragment splitting, and
  dot-segment removal — parsing fails (`none`) exactly on the
  absolute forms with an empty host, mirroring `new URL` throwing;
* `getLocalPath`, `processAssets`, `updateAssetReference`,
  `rewriteLinks`, `processCSSFile`, `downloadPage`, `clone` translated
  from the source, together with a small-step scheduler model of
  `processDownloadQueue`/`downloadAsset` in which the event-loop
  interleavings are action sequences (`SchedAction`), and the state
  carries history variables (`inFlight`, `fetchLog`, `dequeuedLog`)
  used only to state properties.
-/

/-! ### Character-list helpers -/

/-- Head-of-list character test. -/
def headIs (c : Char) : List Char → Bool
  | [] => false
  | x :: _ => x = c

/-- Last-of-list character test. -/
def lastIs (c : Char) (l : List Char) : Bool := headIs c l.reverse

/-- Drop all trailing occurrences of a character. -/
def dropTrailing (c : Char) (l : List Char) : List Char :=
  (l.reverse.dropWhile (fun x => x = c)).reverse

/-- Suffix after the last occurrence of a character (whole list if absent). -/
def afterLast (c : Char) (l : List Char) : List Char :=
  (l.reverse.takeWhile (fun x => x ≠ c)).reverse

/-- Split at the first occurrence of a character; the second component
    starts with the separator when it is present. -/
def splitAtChar (c : Char) (l : List Char) : List Char × List Char :=
  (l.takeWhile (fun x => x ≠ c), l.dropWhile (fun x => x ≠ c))

/-- Split a character list on a separator character (JavaScript
    `String.prototype.split` semantics: `n+1` pieces for `n` separators). -/
def splitOnChar (c : Char) : List Char → List (List Char)
  | [] => [[]]
  | x :: xs =>
    match splitOnChar c xs with
    | [] => [[]]
    | h :: t => if x = c then [] :: h :: t else (x :: h) :: t

/-- Interleave a separator character between pieces. -/
def intercalateChar (c : Char) : List (List Char) → List Char
  | [] => []
  | [s] => s
  | s :: r :: rest => s ++ c :: intercalateChar c (r :: rest)

/-- Trim leading and trailing whitespace (JavaScript `trim`). -/
def trimChars (l : List Char) : List Char :=
  ((l.dropWhile Char.isWhitespace).reverse.dropWhile Char.isWhitespace).reverse

/-! ### Node `path.extname` (posix)

`path.extname(p)` returns the substring of the basename of `p` from its
last dot, except that it returns the empty string when the basename has
no dot, when the last dot is the basename's first character, or when the
basename is exactly `".."`. Trailing path separators are ignored. -/

/-- Basename of a path after ignoring trailing separators. -/
def basenameL (p : List Char) : List Char :=
  afterLast '/' (dropTrailing '/' p)

/-- Model of Node `path.extname` on character lists. -/
def extnameL (p : List Char) : List Char :=
  let b := basenameL p
  if b = ['.', '.'] then []
  else if '.' ∈ b then
    let suf := (b.reverse.takeWhile (fun x => x ≠ '.')).reverse
    if b.length = suf.length + 1 then [] else '.' :: suf
  else []

/-- Model of Node `path.extname` on strings. -/
def extname (p : String) : String := String.mk (extnameL p.toList)

/-! ### `WebsiteCloner.getLocalPath` (src/index.js lines 162-182) -/

/-- Last two mutations of `pathname` in `getLocalPath`: append
    `index.html` when empty or ending in a slash; append `.html` when
    `path.extname` is empty. -/
def glpStage (p1 : List Char) : List Char :=
  let p2 := if p1 = [] ∨ lastIs '/' p1 then p1 ++ "index.html".toList else p1
  if extnameL p2 = [] then p2 ++ ".html".toList else p2

/-- Character-list core of `getLocalPath`: take the URL's `pathname`;
    strip one leading slash; then apply the two appends of `glpStage`. -/
def getLocalPathL (p : List Char) : List Char :=
  glpStage (if headIs '/' p then p.drop 1 else p)

/-! ### Simplified WHATWG URL model -/

/-- Parsed URL record: the components of a WHATWG `URL` object the cloner
    reads. `search` includes a leading `?` and `hash` a leading `#` when
    present, as in the JavaScript `URL` accessors. -/
structure URLRecord where
  scheme : String
  host : String
  pathname : String
  search : String
  hash : String
deriving DecidableEq, Repr

/-- Serialization of a `URLRecord`, as `URL.prototype.href`. -/
def URLRecord.href (u : URLRecord) : String :=
  u.scheme ++ "://" ++ u.host ++ u.pathname ++ u.search ++ u.hash

/-- Serialization of a `URLRecord` origin, as `URL.prototype.origin`. -/
def URLRecord.origin (u : URLRecord) : String :=
  u.scheme ++ "://" ++ u.host

/-- Path segments of a `pathname` (leading slash removed, then split). -/
def segsOfPath (p : List Char) : List (List Char) :=
  splitOnChar '/' (if headIs '/' p then p.drop 1 else p)

/-- One step of WHATWG remove-dot-segments over a reversed segment stack. -/
def urlNormStep (stack : List (List Char)) (seg : List Char) : List (List Char) :=
  if seg = ['.'] then stack
  else if seg = ['.', '.'] then stack.tail
  else seg :: stack

/-- WHATWG remove-dot-segments: `.` segments vanish, `..` pops, and a
    trailing dot segment leaves a trailing empty segment. -/
def removeDotSegs (segs : List (List Char)) : List (List Char) :=
  let st := segs.foldl urlNormStep []
  let st2 := if segs.getLast? = some ['.'] ∨ segs.getLast? = some ['.', '.']
             then [] :: st else st
  st2.reverse

/-- Reassemble a pathname from segments (always slash-prefixed). -/
def renderPath (segs : List (List Char)) : List Char :=
  '/' :: intercalateChar '/' segs

/-- Parse the part of an absolute URL after `scheme://`; fails on an
    empty host, mirroring `new URL` throwing on e.g. `http://`. -/
def parseAfterScheme (scheme : String) (rest : List Char) : Option URLRecord :=
  let host := rest.takeWhile (fun c => ¬(c = '/' ∨ c = '?' ∨ c = '#'))
  let r := rest.dropWhile (fun c => ¬(c = '/' ∨ c = '?' ∨ c = '#'))
  if host = [] then none
  else
    let (beforeHash, hsh) := splitAtChar '#' r
    let (pathPart, search) := splitAtChar '?' beforeHash
    some { scheme := scheme
         , host := String.mk host
         , pathname := String.mk (renderPath (removeDotSegs (segsOfPath pathPart)))
         , search := String.mk search
         , hash := String.mk hsh }

/-- Model of `new URL(raw, base)`: resolve a raw reference against a base
    URL. Returns `none` exactly where the constructor would throw in the
    modelled fragment (absolute or protocol-relative form with an empty
    host). -/
def resolveRef (raw : String) (base : URLRecord) : Option URLRecord :=
  let l := raw.toList
  if l = [] then some { base with hash := "" }
  else if "http://".toList.isPrefixOf l then parseAfterScheme "http" (l.drop 7)
  else if "https://".toList.isPrefixOf l then parseAfterScheme "https" (l.drop 8)
  else if "//".toList.isPrefixOf l then parseAfterScheme base.scheme (l.drop 2)
  else
    let (beforeHash, hsh) := splitAtChar '#' l
    let (pathPart, search) := splitAtChar '?' beforeHash
    if pathPart = [] then
      if search = [] then some { base with hash := String.mk hsh }
      else some { base with search := String.mk search, hash := String.mk hsh }
    else if headIs '/' pathPart then
      some { base with
               pathname := String.mk (renderPath (removeDotSegs (segsOfPath pathPart)))
             , search := String.mk search
             , hash := String.mk hsh }
    else
      let dirSegs := (segsOfPath base.pathname.toList).dropLast
      let refSegs := splitOnChar '/' pathPart
      some { base with
               pathname := String.mk (renderPath (removeDotSegs (dirSegs ++ refSegs)))
             , search := String.mk search
             , hash := String.mk hsh }

/-- `WebsiteCloner.getLocalPath`: maps a URL to its local relative path.
    It reads only the URL's `pathname` component. -/
def getLocalPath (u : URLRecord) : String := String.mk (getLocalPathL u.pathname.toList)

/-- Path-resolution algorithm as the specification words it: take the
    URL's path component; strip a leading path separator; if the result
    is empty or ends in a path separator, append the default document
    name `index.html`; if the remaining name has no extension, append a
    default `.html` extension. Used only to compare against
    `getLocalPath`. -/
def specResolveL (p : List Char) : List Char :=
  let stripped := if headIs '/' p then p.drop 1 else p
  let named := if stripped = [] ∨ lastIs '/' stripped
               then stripped ++ "index.html".toList else stripped
  if extnameL named = [] then named ++ ".html".toList else named

/-- Specification-worded path resolver on URL records. -/
def specResolve (u : URLRecord) : String := String.mk (specResolveL u.pathname.toList)

/-! ### Document model and the Asset Extractor / Rewriter
(src/index.js lines 75-160)

A parsed document is a list of elements; cheerio element handles become
list indices. -/

/-- An element of the parsed document: tag name and attribute list. -/
structure Element where
  tag : String
  attrs : List (String × String)
deriving DecidableEq, Repr

/-- Attribute lookup, as `$(el).attr(name)`. -/
def getAttr (e : Element) (n : String) : Option String :=
  (e.attrs.find? (fun kv => kv.1 == n)).map (fun kv => kv.2)

/-- Replace the value of an attribute, or append it when absent. -/
def setAttrList (n v : String) : List (String × String) → List (String × String)
  | [] => [(n, v)]
  | (k, w) :: rest => if k = n then (n, v) :: rest else (k, w) :: setAttrList n v rest

/-- Attribute update, as `$(el).attr(name, value)`. -/
def setAttr (e : Element) (n v : String) : Element :=
  { e with attrs := setAttrList n v e.attrs }

/-- Apply a function to the element at an index, when it exists. -/
def modifyIdx (f : Element → Element) : Nat → List Element → List Element
  | _, [] => []
  | 0, x :: xs => f x :: xs
  | n + 1, x :: xs => x :: modifyIdx f n xs

/-- URL tokens of a `srcset` attribute: split on commas, trim each
    candidate, keep the part before the first space, drop empties
    (`srcset.split(',').map(s => s.trim().split(' ')[0])` with the
    truthiness filter). -/
def srcsetUrls (s : String) : List String :=
  ((splitOnChar ',' s.toList).map
      (fun seg => (trimChars seg).takeWhile (fun c => c ≠ ' '))).filterMap
    (fun u => if u = [] then none else some (String.mk u))

/-- Candidate assets of a document, in the order `processAssets` collects
    them: stylesheet links, then scripts, then image `src`, then each
    `srcset` entry. Each candidate is `(type, rawUrl, element index)`;
    empty attribute values are skipped by the JavaScript truthiness
    checks. -/
def collectAssets (doc : List Element) : List (String × String × Nat) :=
  let idxed := doc.enum
  (idxed.filterMap (fun ie =>
      if ie.2.tag = "link" ∧ getAttr ie.2 "rel" = some "stylesheet" then
        match getAttr ie.2 "href" with
        | some h => if h = "" then none else some ("css", h, ie.1)
        | none => none
      else none))
  ++ (idxed.filterMap (fun ie =>
      if ie.2.tag = "script" then
        match getAttr ie.2 "src" with
        | some s => if s = "" then none else some ("js", s, ie.1)
        | none => none
      else none))
  ++ (idxed.filterMap (fun ie =>
      if ie.2.tag = "img" then
        match getAttr ie.2 "src" with
        | some s => if s = "" then none else some ("img", s, ie.1)
        | none => none
      else none))
  ++ (idxed.map (fun ie =>
      if ie.2.tag = "img" then
        match getAttr ie.2 "srcset" with
        | some s =>
          if s = "" then [] else (srcsetUrls s).map (fun u => ("img", u, ie.1))
        | none => []
      else [])).flatten

/-- `WebsiteCloner.updateAssetReference`: set the element's reference
    attribute to `'./' + localPath`. Stylesheets update `href`; scripts
    and images update `src` (note: never `srcset`). -/
def updateAssetReference (doc : List Element) (ty : String) (i : Nat)
    (localPath : String) : List Element :=
  let rel := "./" ++ localPath
  if ty = "css" then modifyIdx (fun e => setAttr e "href" rel) i doc
  else if ty = "js" then modifyIdx (fun e => setAttr e "src" rel) i doc
  else if ty = "img" then modifyIdx (fun e => setAttr e "src" rel) i doc
  else doc

/-! ### Cloner state and the Download Scheduler
(src/index.js lines 17-25, 184-230) -/

/-- A queued download task, as pushed by `processAssets` and
    `processCSSFile`. The code stores the canonical `href` string; the
    model keeps the parsed record (its `href` is the dedup key). -/
structure WorkItem where
  url : URLRecord
  localPath : String
  itemType : String
deriving DecidableEq, Repr

/-- The `WebsiteCloner` instance state. `downloadedFiles`,
    `downloadQueue`, `maxConcurrent` and `activeDownloads` are the
    constructor fields; `inFlight`, `fetchLog` and `dequeuedLog` are
    history variables recording, respectively, the tasks currently
    between dequeue and completion, every network fetch issued, and every
    item ever removed from the queue. -/
structure ClonerState where
  baseUrl : URLRecord
  outputDir : String
  downloadedFiles : List String
  downloadQueue : List WorkItem
  maxConcurrent : Nat
  activeDownloads : Nat
  inFlight : List WorkItem
  fetchLog : List String
  dequeuedLog : List WorkItem
deriving DecidableEq, Repr

/-- The `WebsiteCloner` constructor: empty dedup set and queue,
    concurrency ceiling 5, no active downloads. -/
def initCloner (baseUrl : URLRecord) (outputDir : String) : ClonerState :=
  { baseUrl := baseUrl
  , outputDir := outputDir
  , downloadedFiles := []
  , downloadQueue := []
  , maxConcurrent := 5
  , activeDownloads := 0
  , inFlight := []
  , fetchLog := []
  , dequeuedLog := [] }

/-- `Set.prototype.add`: insert when not already a member. -/
def setInsert (l : List String) (x : String) : List String :=
  if x ∈ l then l else l ++ [x]

/-! ### `processAssets` (src/index.js lines 75-127) -/

/-- Body of the `for (const asset of assets)` loop: resolve the raw URL
    against the page URL (an invalid URL is caught, logged, and the whole
    iteration skipped); enqueue when the canonical `href` is not in
    `downloadedFiles` (without inserting it); always rewrite the
    element's reference attribute to the local path. -/
def processAssetStep (pageUrl : URLRecord) (acc : ClonerState × List Element)
    (a : String × String × Nat) : ClonerState × List Element :=
  match resolveRef a.2.1 pageUrl with
  | none => acc
  | some u =>
    let lp := getLocalPath u
    let st := acc.1
    let st2 := if u.href ∈ st.downloadedFiles then st
               else { st with downloadQueue := st.downloadQueue ++ [⟨u, lp, a.1⟩] }
    (st2, updateAssetReference acc.2 a.1 a.2.2 lp)

/-- The download loop of `processAssets` over an explicit asset list. -/
def processAssetsLoop (st : ClonerState) (doc : List Element)
    (pageUrl : URLRecord) (assets : List (String × String × Nat)) :
    ClonerState × List Element :=
  assets.foldl (processAssetStep pageUrl) (st, doc)

/-- `WebsiteCloner.processAssets`: collect candidate references, then run
    the download loop over them. -/
def processAssets (st : ClonerState) (doc : List Element)
    (pageUrl : URLRecord) : ClonerState × List Element :=
  processAssetsLoop st doc pageUrl (collectAssets doc)

/-! ### `rewriteLinks` (src/index.js lines 141-160) -/

/-- Per-element body of `rewriteLinks`: anchors whose `href` is nonempty
    and is not a fragment, `mailto:` or `tel:` reference are resolved
    against the page URL; same-origin targets are rewritten to
    `'./' + getLocalPath`. Parse failures leave the element unchanged. -/
def rewriteLinkElem (baseUrl pageUrl : URLRecord) (e : Element) : Element :=
  if e.tag = "a" then
    match getAttr e "href" with
    | some h =>
      if h ≠ "" ∧ ¬"#".toList.isPrefixOf h.toList
         ∧ ¬"mailto:".toList.isPrefixOf h.toList
         ∧ ¬"tel:".toList.isPrefixOf h.toList then
        match resolveRef h pageUrl with
        | some u =>
          if u.origin = baseUrl.origin then setAttr e "href" ("./" ++ getLocalPath u)
          else e
        | none => e
      else e
    | none => e
  else e

/-- `WebsiteCloner.rewriteLinks` over the whole document. -/
def rewriteLinks (baseUrl : URLRecord) (doc : List Element)
    (pageUrl : URLRecord) : List Element :=
  doc.map (rewriteLinkElem baseUrl pageUrl)

/-! ### Node `path.join`, `path.dirname`, `path.relative` (posix) -/

/-- One step of posix path normalization over a reversed segment stack:
    empty and `.` segments vanish; `..` pops a poppable segment and is
    otherwise kept (relative paths may start with `..`). -/
def normStep (stack : List String) (seg : String) : List String :=
  if seg = "" ∨ seg = "." then stack
  else if seg = ".." then
    match stack with
    | [] => [".."]
    | s :: rest => if s = ".." then ".." :: s :: rest else rest
  else seg :: stack

/-- Segments of a path string. -/
def splitSegs (p : String) : List String :=
  (splitOnChar '/' p.toList).map String.mk

/-- Normalized segments of a path string. -/
def normSegsOf (p : String) : List String :=
  ((splitSegs p).foldl normStep []).reverse

/-- Model of posix `path.join(a, b)`: concatenate and normalize,
    preserving rootedness of the first argument; the empty result is
    `"."` as in Node. -/
def pathJoin (a b : String) : String :=
  let segs := normSegsOf (a ++ "/" ++ b)
  if headIs '/' a.toList then "/" ++ String.intercalate "/" segs
  else if segs = [] then "." else String.intercalate "/" segs

/-- Model of posix `path.dirname`: strip trailing separators and the
    basename; keep the separator run before the basename except the one
    separating it. -/
def dirname (p : String) : String :=
  let l := p.toList
  if l = [] then "."
  else
    let hasRoot := headIs '/' l
    let r2 := (l.reverse.dropWhile (fun c => c = '/')).dropWhile (fun c => c ≠ '/')
    match r2 with
    | [] => if hasRoot then "/" else "."
    | _ :: a =>
      if a = [] then (if hasRoot then "/" else ".")
      else if hasRoot ∧ a = ['/'] then "//"
      else String.mk a.reverse

/-- Relative segment walk from one normalized segment list to another:
    drop the common prefix, go up once per remaining source segment, then
    down the remaining target segments. -/
def relSegs : List String → List String → List String
  | f :: fs, t :: ts =>
    if f = t then relSegs fs ts
    else List.replicate (fs.length + 1) ".." ++ (t :: ts)
  | [], ts => ts
  | fs, [] => List.replicate fs.length ".."

/-- Model of posix `path.relative(from, to)` for two paths of the same
    rootedness (the cloner always passes paths under its own output
    directory). -/
def pathRelative (f t : String) : String :=
  String.intercalate "/" (relSegs (normSegsOf f) (normSegsOf t))

/-- Interpretation of a relative segment walk from a base directory:
    fold the normalization step over the walk, starting at the base. -/
def navigate (base rel : List String) : List String :=
  (rel.foldl normStep base.reverse).reverse

/-- A normalized segment that is a real name (not empty, `.` or `..`). -/
def segClean (s : String) : Bool := ¬(s = "" ∨ s = "." ∨ s = "..")

/-- All segments are real names. -/
def cleanSegs (l : List String) : Bool := l.all segClean

/-! ### `processCSSFile` (src/index.js lines 232-273) -/

/-- Characters admitted inside the `url(...)` capture group of the regex
    `url\(['"]?([^'")\s]+)['"]?\)`. -/
def isCapChar (c : Char) : Bool :=
  ¬(c = Char.ofNat 39 ∨ c = Char.ofNat 34 ∨ c = ')' ∨ c.isWhitespace)

/-- A quote character (single or double). -/
def isQuote (c : Char) : Bool := c = Char.ofNat 39 ∨ c = Char.ofNat 34

/-- Try to match the CSS url-reference regex at the head of the input.
    On success, return the whole match, the captured URL, and the rest of
    the input. -/
def tryMatchUrl (l : List Char) : Option (List Char × List Char × List Char) :=
  match l with
  | 'u' :: 'r' :: 'l' :: '(' :: rest =>
    let q1 : List Char × List Char :=
      match rest with
      | c :: r => if isQuote c then ([c], r) else ([], rest)
      | [] => ([], rest)
    let cap := q1.2.takeWhile isCapChar
    if cap = [] then none
    else
      let r2 := q1.2.drop cap.length
      match r2 with
      | ')' :: r4 =>
        some ('u' :: 'r' :: 'l' :: '(' :: (q1.1 ++ cap ++ [')']), cap, r4)
      | c :: ')' :: r4 =>
        if isQuote c then
          some ('u' :: 'r' :: 'l' :: '(' :: (q1.1 ++ cap ++ [c, ')']), cap, r4)
        else none
      | _ => none
  | _ => none

/-- Successive non-overlapping regex matches (`regex.exec` loop), with
    fuel bounded by the input length. Each entry is
    `(whole match, captured URL)`. -/
def scanCssAux : Nat → List Char → List (String × String)
  | 0, _ => []
  | _, [] => []
  | n + 1, c :: tl =>
    match tryMatchUrl (c :: tl) with
    | some (m0, cap, rest) => (String.mk m0, String.mk cap) :: scanCssAux n rest
    | none => scanCssAux n tl

/-- All `url(...)` matches of a stylesheet text, in order. -/
def scanCss (css : String) : List (String × String) :=
  scanCssAux css.toList.length css.toList

/-- Replace the first occurrence of a pattern in a character list
    (JavaScript `String.prototype.replace` with a string pattern). -/
def replaceFirstL (pat repl : List Char) : List Char → List Char
  | [] => []
  | c :: tl =>
    if pat.isPrefixOf (c :: tl) then repl ++ (c :: tl).drop pat.length
    else c :: replaceFirstL pat repl tl

/-- String wrapper of `replaceFirstL`. -/
def replaceFirst (s pat repl : String) : String :=
  String.mk (replaceFirstL pat.toList repl.toList s.toList)

/-- Replace backslashes by forward slashes
    (`relativePath.replace(/\\/g, '/')`). -/
def slashify (s : String) : String :=
  String.mk (s.toList.map (fun c => if c = Char.ofNat 92 then '/' else c))

/-- The replacement text `processCSSFile` writes for a reference resolved
    to `u`: a path relative to the stylesheet's own directory,
    `url("path.relative(path.dirname(filePath),
    path.join(outputDir, localPath))")`. -/
def cssReplacement (outputDir filePath : String) (u : URLRecord) : String :=
  "url(" ++ String.mk [Char.ofNat 34]
    ++ slashify (pathRelative (dirname filePath) (pathJoin outputDir (getLocalPath u)))
    ++ String.mk [Char.ofNat 34] ++ ")"

/-- Body of the `while ((match = urlRegex.exec(...)))` loop of
    `processCSSFile`: resolve the captured URL against the stylesheet URL
    (invalid URLs are skipped), enqueue an unseen canonical URL, and
    record the `(whole match, replacement)` pair applied to the
    stylesheet text. -/
def processCSSStep (filePath : String) (cssUrl : URLRecord)
    (acc : ClonerState × List (String × String)) (m : String × String) :
    ClonerState × List (String × String) :=
  match resolveRef m.2 cssUrl with
  | none => acc
  | some u =>
    let lp := getLocalPath u
    let st2 := if u.href ∈ acc.1.downloadedFiles then acc.1
               else { acc.1 with
                        downloadQueue := acc.1.downloadQueue ++ [⟨u, lp, "asset"⟩] }
    (st2, acc.2 ++ [(m.1, cssReplacement acc.1.outputDir filePath u)])

/-- The match loop of `processCSSFile` over an explicit match list. -/
def processCSSCore (st : ClonerState) (filePath : String) (cssUrl : URLRecord)
    (ms : List (String × String)) : ClonerState × List (String × String) :=
  ms.foldl (processCSSStep filePath cssUrl) (st, [])

/-- `WebsiteCloner.processCSSFile`: scan the stylesheet text, process
    every match, and apply the accumulated first-occurrence replacements
    to the text that is written back. -/
def processCSSFileModel (st : ClonerState) (filePath : String)
    (cssUrl : URLRecord) (css : String) : ClonerState × String :=
  let res := processCSSCore st filePath cssUrl (scanCss css)
  (res.1, res.2.foldl (fun s p => replaceFirst s p.1 p.2) css)

/-! ### Scheduler small-step semantics
(`processDownloadQueue` lines 184-198, `downloadAsset` lines 200-230)

The polling loop and the cooperative event loop are modelled as a
small-step system. `startItem` is one iteration of the dequeue branch of
the `while` loop together with the synchronous prefix of
`downloadAsset` (the `downloadedFiles` early-return check runs before
the first `await`); `finishOk`/`finishErr` are the completion of an
in-flight `downloadAsset` call (success with the fetched body, or any
fetch/write failure) together with its `finally` decrement. -/

/-- A scheduler event. `finishOk` carries the fetched text, which is
    scanned for `url()` references when the item is a stylesheet. -/
inductive SchedAction where
  | startItem : SchedAction
  | finishOk : WorkItem → String → SchedAction
  | finishErr : WorkItem → SchedAction
deriving DecidableEq, Repr

/-- One scheduler step; `none` when the event cannot occur in the given
    state (empty queue, full ceiling, or no such in-flight item). -/
def step (s : ClonerState) (a : SchedAction) : Option ClonerState :=
  match a with
  | .startItem =>
    match s.downloadQueue with
    | [] => none
    | item :: rest =>
      if s.activeDownloads < s.maxConcurrent then
        if item.url.href ∈ s.downloadedFiles then
          some { s with downloadQueue := rest
                      , dequeuedLog := s.dequeuedLog ++ [item] }
        else
          some { s with downloadQueue := rest
                      , activeDownloads := s.activeDownloads + 1
                      , inFlight := s.inFlight ++ [item]
                      , fetchLog := s.fetchLog ++ [item.url.href]
                      , dequeuedLog := s.dequeuedLog ++ [item] }
      else none
  | .finishOk item body =>
    if item ∈ s.inFlight then
      let s1 := { s with inFlight := s.inFlight.erase item
                       , downloadedFiles := setInsert s.downloadedFiles item.url.href }
      let s2 := if item.itemType = "css" then
                  (processCSSFileModel s1 (pathJoin s.outputDir item.localPath)
                    item.url body).1
                else s1
      some { s2 with activeDownloads := s2.activeDownloads - 1 }
    else none
  | .finishErr item =>
    if item ∈ s.inFlight then
      some { s with inFlight := s.inFlight.erase item
                  , activeDownloads := s.activeDownloads - 1 }
    else none

/-- Run a sequence of scheduler events. -/
def run (s : ClonerState) : List SchedAction → Option ClonerState
  | [] => some s
  | a :: rest =>
    match step s a with
    | none => none
    | some t => run t rest

/-- The `while` condition of `processDownloadQueue`:
    `downloadQueue.length > 0 || activeDownloads > 0`. -/
def loopGuard (s : ClonerState) : Bool :=
  decide (s.downloadQueue.length > 0) || decide (s.activeDownloads > 0)

/-! ### `downloadPage` and `clone` (src/index.js lines 27-73) -/

/-- Outcome of `downloadPage` for the entry page. The network fetch is an
    oracle: `none` models any axios failure (network error, timeout, or
    non-2xx status, all of which reject the promise) and `some doc` a
    successful response parsed into a document. The whole body runs in a
    `try`/`catch` that only logs, so a failure returns the state
    unchanged and writes nothing — it does not propagate. -/
def downloadPage (st : ClonerState) (pageUrl : URLRecord) (filename : String)
    (response : Option (List Element)) : ClonerState × List (String × List Element) :=
  match response with
  | none => (st, [])
  | some doc =>
    let r1 := processAssets st doc pageUrl
    let doc2 := rewriteLinks r1.1.baseUrl r1.2 pageUrl
    let st2 := { r1.1 with
                   downloadedFiles := setInsert r1.1.downloadedFiles pageUrl.href }
    (st2, [(pathJoin st.outputDir filename, doc2)])

/-- Result of a completed `clone()` call. -/
structure CloneResult where
  finalState : ClonerState
  dirCreated : Bool
  pageWrites : List (String × List Element)
  reportedSuccess : Bool
deriving DecidableEq, Repr

/-- `WebsiteCloner.clone`: ensure the output directory, download the
    entry page as `index.html`, drain the queue (the caller supplies the
    event order `drain`; `none` means the order is not schedulable),
    then unconditionally print the completion message — modelled by
    `reportedSuccess := true`. -/
def cloneModel (baseUrl : URLRecord) (outputDir : String)
    (response : Option (List Element)) (drain : List SchedAction) :
    Option CloneResult :=
  let st0 := initCloner baseUrl outputDir
  let r1 := downloadPage st0 baseUrl "index.html" response
  match run r1.1 drain with
  | none => none
  | some st2 =>
    some { finalState := st2
         , dirCreated := true
         , pageWrites := r1.2
         , reportedSuccess := true }

/-! ### Basic lemmas about the character-list helpers -/

theorem headIs_iff {c : Char} {l : List Char} :
    headIs c l = true ↔ ∃ r, l = c :: r := by
  cases l with
  | nil => simp [headIs]
  | cons x r =>
    simp only [headIs, decide_eq_true_eq]
    constructor
    · rintro rfl; exact ⟨r, rfl⟩
    · rintro ⟨r2, h⟩; cases h; rfl

theorem headIs_append_left {c : Char} {l s : List Char} (h : l ≠ []) :
    headIs c (l ++ s) = headIs c l := by
  cases l with
  | nil => exact absurd rfl h
  | cons x r => rfl

theorem lastIs_append_right {c : Char} {l s : List Char} (h : s ≠ []) :
    lastIs c (l ++ s) = lastIs c s := by
  unfold lastIs
  rw [List.reverse_append]
  exact headIs_append_left (by simpa using h)

theorem takeWhile_append_all {p : Char → Bool} {l₁ : List Char} (l₂ : List Char)
    (h : ∀ c ∈ l₁, p c = true) :
    (l₁ ++ l₂).takeWhile p = l₁ ++ l₂.takeWhile p := by
  induction l₁ with
  | nil => rfl
  | cons x r ih =>
    have hx : p x = true := h x (by simp)
    simp only [List.cons_append, List.takeWhile_cons, hx, if_true]
    rw [ih (fun c hc => h c (by simp [hc]))]

theorem dropWhile_append_head_false {p : Char → Bool} {l₂ : List Char}
    (l₁ : List Char) (c : Char) (h : p c = false) :
    (c :: l₂ ++ l₁).dropWhile p = c :: l₂ ++ l₁ := by
  simp [List.dropWhile_cons, h]

theorem dropTrailing_eq_self {c : Char} {l : List Char} (h : lastIs c l = false) :
    dropTrailing c l = l := by
  unfold dropTrailing
  cases hl : l.reverse with
  | nil =>
    have : l = [] := by simpa using congrArg List.reverse hl
    simp [this]
  | cons x r =>
    have hlr : l = (x :: r).reverse := by rw [← hl, List.reverse_reverse]
    have hx : ¬(x = c) := by
      intro hxc
      rw [lastIs, hl, hxc] at h
      simp [headIs] at h
    rw [List.dropWhile_cons]
    simp [hx, hlr.symm]

theorem afterLast_append_all {c : Char} {s : List Char} (l : List Char)
    (h : ∀ ch ∈ s, ch ≠ c) :
    afterLast c (l ++ s) = afterLast c l ++ s := by
  unfold afterLast
  rw [List.reverse_append,
    takeWhile_append_all l.reverse (by intro ch hch; simp [h ch (by simpa using hch)]),
    List.reverse_append, List.reverse_reverse]

theorem afterLast_ne_nil {c : Char} {l : List Char} (hp : l ≠ [])
    (hl : lastIs c l = false) : afterLast c l ≠ [] := by
  unfold afterLast
  cases hl2 : l.reverse with
  | nil =>
    exact absurd (by simpa using congrArg List.reverse hl2) hp
  | cons x r =>
    have hx : ¬(x = c) := by
      intro hxc
      rw [lastIs, hl2, hxc] at hl
      simp [headIs] at hl
    rw [List.takeWhile_cons]
    simp [hx]

theorem afterLast_last_stop {c : Char} {l : List Char} (hl : lastIs c l = true) :
    afterLast c l = [] := by
  unfold afterLast
  rcases headIs_iff.mp hl with ⟨r, hr⟩
  rw [hr, List.takeWhile_cons]
  simp

theorem extnameL_basename_suffix {p bp : List Char} (hbp : bp ≠ [])
    (hb : basenameL p = bp ++ ['.', 'h', 't', 'm', 'l']) :
    extnameL p = ['.', 'h', 't', 'm', 'l'] := by
  unfold extnameL
  rw [hb]
  have hne2 : ¬(bp ++ ['.', 'h', 't', 'm', 'l'] = ['.', '.'])  := by
    intro hcontra
    have := congrArg List.length hcontra
    simp [List.length_append] at this
  have hmem : '.' ∈ bp ++ ['.', 'h', 't', 'm', 'l'] := by simp
  have hsuf : ((bp ++ ['.', 'h', 't', 'm', 'l']).reverse.takeWhile
      (fun x => x ≠ '.')).reverse = ['h', 't', 'm', 'l'] := by
    rw [List.reverse_append]
    rfl
  rw [if_neg hne2, if_pos hmem, hsuf]
  have hlen : ¬((bp ++ ['.', 'h', 't', 'm', 'l']).length = ['h', 't', 'm', 'l'].length + 1) := by
    simp [List.length_append]
    intro hcontra
    exact hbp hcontra
  rw [if_neg hlen]

theorem basenameL_append_html (p : List Char) :
    basenameL (p ++ ['.', 'h', 't', 'm', 'l'])
      = afterLast '/' p ++ ['.', 'h', 't', 'm', 'l'] := by
  unfold basenameL
  have hlast : lastIs '/' (p ++ ['.', 'h', 't', 'm', 'l']) = false := by
    rw [lastIs_append_right (by simp)]
    rfl
  rw [dropTrailing_eq_self hlast,
    afterLast_append_all p (by intro ch hch; fin_cases hch <;> simp)]

theorem extnameL_append_html {p : List Char} (hp : p ≠ [])
    (hl : lastIs '/' p = false) :
    extnameL (p ++ ".html".toList) = ".html".toList := by
  have hhtml : ".html".toList = ['.', 'h', 't', 'm', 'l'] := rfl
  rw [hhtml]
  exact extnameL_basename_suffix (afterLast_ne_nil hp hl) (basenameL_append_html p)

theorem basenameL_dir_append_index {p1 : List Char}
    (h : p1 = [] ∨ lastIs '/' p1 = true) :
    basenameL (p1 ++ "index.html".toList) = "index.html".toList := by
  rcases h with h | h
  · rw [h]; rfl
  · unfold basenameL
    have hlast : lastIs '/' (p1 ++ "index.html".toList) = false := by
      rw [lastIs_append_right (by simp)]
      rfl
    rw [dropTrailing_eq_self hlast,
      afterLast_append_all p1 (by intro ch hch; fin_cases hch <;> simp),
      afterLast_last_stop h]
    rfl

theorem extnameL_dir_append_index {p1 : List Char}
    (h : p1 = [] ∨ lastIs '/' p1 = true) :
    extnameL (p1 ++ "index.html".toList) = ".html".toList := by
  have hidx : "index.html".toList = ['i', 'n', 'd', 'e', 'x'] ++ ['.', 'h', 't', 'm', 'l'] := rfl
  have hb := basenameL_dir_append_index h
  rw [hidx] at hb
  exact extnameL_basename_suffix (by simp) hb

theorem isPrefixOf_single_eq_headIs (c : Char) (q : List Char) :
    [c].isPrefixOf q = headIs c q := by
  cases q with
  | nil => rfl
  | cons x r =>
    simp only [List.isPrefixOf, headIs, List.isPrefixOf_nil_left, Bool.and_true]
    by_cases h : x = c
    · subst h; simp
    · simp [h, Ne.symm h]

theorem glpStage_eq_ite (p1 : List Char) :
    glpStage p1 =
      (if extnameL (if p1 = [] ∨ lastIs '/' p1 = true
          then p1 ++ "index.html".toList else p1) = []
       then (if p1 = [] ∨ lastIs '/' p1 = true
          then p1 ++ "index.html".toList else p1) ++ ".html".toList
       else (if p1 = [] ∨ lastIs '/' p1 = true
          then p1 ++ "index.html".toList else p1)) := rfl

theorem glpStage_shape (p1 : List Char) :
    glpStage p1 ≠ [] ∧ extnameL (glpStage p1) ≠ [] ∧
      lastIs '/' (glpStage p1) = false ∧
      (headIs '/' p1 = false → headIs '/' (glpStage p1) = false) := by
  by_cases hdir : p1 = [] ∨ lastIs '/' p1 = true
  · have hidx := extnameL_dir_append_index hdir
    have hstage : glpStage p1 = p1 ++ "index.html".toList := by
      rw [glpStage_eq_ite, if_pos hdir, hidx]
      simp
    refine ⟨?_, ?_, ?_, ?_⟩ <;> rw [hstage]
    · simp
    · rw [hidx]; simp
    · rw [lastIs_append_right (by simp)]; rfl
    · intro hh
      cases p1 with
      | nil => rfl
      | cons x r => rw [headIs_append_left (by simp)]; exact hh
  · push_neg at hdir
    have hne : p1 ≠ [] := hdir.1
    have hlast : lastIs '/' p1 = false := Bool.eq_false_iff.mpr hdir.2
    have hnotdir : ¬(p1 = [] ∨ lastIs '/' p1 = true) := not_or.mpr ⟨hne, hdir.2⟩
    have hstage2 : glpStage p1 =
        if extnameL p1 = [] then p1 ++ ".html".toList else p1 := by
      rw [glpStage_eq_ite, if_neg hnotdir]
    by_cases hext : extnameL p1 = []
    · have hstage : glpStage p1 = p1 ++ ".html".toList := by
        rw [hstage2, if_pos hext]
      have hx := extnameL_append_html hne hlast
      refine ⟨?_, ?_, ?_, ?_⟩ <;> rw [hstage]
      · simp
      · rw [hx]; simp
      · rw [lastIs_append_right (by simp)]; rfl
      · intro hh
        rw [headIs_append_left hne]; exact hh
    · have hstage : glpStage p1 = p1 := by rw [hstage2, if_neg hext]
      refine ⟨?_, ?_, ?_, ?_⟩ <;> rw [hstage]
      · exact hne
      · exact hext
      · exact hlast
      · exact id

/-! ### Claim C10 -/

/-- C10 (amended): for every input pathname, `getLocalPath` returns a
    non-empty path that never ends in a path separator and whose final
    name has a non-empty `path.extname` extension; it begins with a path
    separator only when the URL's path component begins with two
    separators (the code strips at most one leading separator). -/
theorem local_path_shape_invariant :
    ∀ p : List Char,
      getLocalPathL p ≠ [] ∧
      extnameL (getLocalPathL p) ≠ [] ∧
      lastIs '/' (getLocalPathL p) = false ∧
      ("//".toList.isPrefixOf p = false → headIs '/' (getLocalPathL p) = false) := by
  intro p
  have hs := glpStage_shape (if headIs '/' p then p.drop 1 else p)
  have heq : getLocalPathL p = glpStage (if headIs '/' p then p.drop 1 else p) := rfl
  refine ⟨heq ▸ hs.1, heq ▸ hs.2.1, heq ▸ hs.2.2.1, ?_⟩
  intro hpre
  rw [heq]
  apply hs.2.2.2
  by_cases hh : headIs '/' p = true
  · rcases headIs_iff.mp hh with ⟨q, rfl⟩
    rw [if_pos hh]
    have h2 : ['/'].isPrefixOf q = false := hpre
    rw [isPrefixOf_single_eq_headIs] at h2
    exact h2
  · rw [if_neg hh]
    exact Bool.eq_false_iff.mpr hh

/-- Witness for `local_path_shape_invariant` at the concrete pathname
    `/about`. -/
theorem local_path_shape_invariant_witness :
    getLocalPathL "/about".toList ≠ [] ∧
    headIs '/' (getLocalPathL "/about".toList) = false :=
  ⟨(local_path_shape_invariant "/about".toList).1,
   (local_path_shape_invariant "/about".toList).2.2.2 (by decide)⟩

/-- C10 counterexample: the URL `http://ex.com//foo` parses with
    pathname `//foo`; only one leading separator is stripped, so the
    resolved local path is `/foo.html`, which does begin with a path
    separator — refuting the claim that the result never begins with
    one. -/
theorem local_path_leading_slash_cex :
    resolveRef "http://ex.com//foo" ⟨"http", "ex.com", "/", "", ""⟩
        = some ⟨"http", "ex.com", "//foo", "", ""⟩
      ∧ getLocalPath ⟨"http", "ex.com", "//foo", "", ""⟩ = "/foo.html"
      ∧ headIs '/' "/foo.html".toList = true := by
  decide

/-! ### Claim C5 -/

/-- C5: `getLocalPath` computes exactly the algorithm the specification
    describes (`specResolve`: path component, strip one leading
    separator, default document name, default extension), and its result
    depends only on the URL's path component — query strings and
    fragments never influence it. It is a pure function, so determinism
    holds by construction. -/
theorem path_resolver_matches_spec :
    (∀ u : URLRecord, getLocalPath u = specResolve u) ∧
    (∀ u v : URLRecord, u.pathname = v.pathname → getLocalPath u = getLocalPath v) := by
  constructor
  · intro u; rfl
  · intro u v h; unfold getLocalPath; rw [h]

/-- Witness for `path_resolver_matches_spec`: two URLs sharing a path
    but differing in query and fragment resolve identically. -/
theorem path_resolver_matches_spec_witness :
    getLocalPath ⟨"http", "ex.com", "/style.css", "?v=2", ""⟩
      = getLocalPath ⟨"http", "ex.com", "/style.css", "", "#top"⟩ :=
  path_resolver_matches_spec.2 _ _ rfl

/-! ### Shared concrete instances for witnesses and counterexamples -/

/-- Example page URL `http://ex.com/`. -/
def exPage : URLRecord := ⟨"http", "ex.com", "/", "", ""⟩

/-- Example stylesheet link element. -/
def exLink : Element := ⟨"link", [("rel", "stylesheet"), ("href", "style.css")]⟩

/-- Example image element with both `src` and `srcset`. -/
def exImg : Element := ⟨"img", [("src", "a.png"), ("srcset", "b.png 1x, c.png 2x")]⟩

/-- Example anchor element. -/
def exAnchor : Element := ⟨"a", [("href", "/about")]⟩

/-- Example freshly constructed cloner. -/
def exState : ClonerState := initCloner exPage "./cloned-site"

/-- Example resolved stylesheet URL. -/
def exStyleUrl : URLRecord := ⟨"http", "ex.com", "/style.css", "", ""⟩

/-- Example stylesheet work item. -/
def exStyleItem : WorkItem := ⟨exStyleUrl, "style.css", "css"⟩

/-! ### Scheduler step lemmas -/

theorem step_start_cases {s t : ClonerState} (h : step s .startItem = some t) :
    ∃ item rest, s.downloadQueue = item :: rest ∧
      s.activeDownloads < s.maxConcurrent ∧
      ((item.url.href ∈ s.downloadedFiles ∧
          t = { s with downloadQueue := rest
                     , dequeuedLog := s.dequeuedLog ++ [item] })
       ∨ (item.url.href ∉ s.downloadedFiles ∧
          t = { s with downloadQueue := rest
                     , activeDownloads := s.activeDownloads + 1
                     , inFlight := s.inFlight ++ [item]
                     , fetchLog := s.fetchLog ++ [item.url.href]
                     , dequeuedLog := s.dequeuedLog ++ [item] })) := by
  cases hq : s.downloadQueue with
  | nil => simp [step, hq] at h
  | cons item rest =>
    simp only [step, hq] at h
    refine ⟨item, rest, rfl, ?_⟩
    split_ifs at h with h1 h2
    · exact ⟨h1, Or.inl ⟨h2, (Option.some.inj h).symm⟩⟩
    · exact ⟨h1, Or.inr ⟨h2, (Option.some.inj h).symm⟩⟩

theorem processCSSLoop_state (fp : String) (cu : URLRecord) :
    ∀ (ms : List (String × String)) (st : ClonerState)
      (pairs : List (String × String)),
      ∃ new, (List.foldl (processCSSStep fp cu) (st, pairs) ms).1
        = { st with downloadQueue := st.downloadQueue ++ new } := by
  intro ms
  induction ms with
  | nil => intro st pairs; exact ⟨[], by simp⟩
  | cons m rest ih =>
    intro st pairs
    rw [List.foldl_cons]
    cases hres : resolveRef m.2 cu with
    | none =>
      have hstep : processCSSStep fp cu (st, pairs) m = (st, pairs) := by
        rw [processCSSStep, hres]
      rw [hstep]
      exact ih st pairs
    | some u =>
      by_cases hmem : u.href ∈ st.downloadedFiles
      · have hstep : processCSSStep fp cu (st, pairs) m
            = (st, pairs ++ [(m.1, cssReplacement st.outputDir fp u)]) := by
          rw [processCSSStep, hres]
          simp [hmem]
        rw [hstep]
        exact ih st _
      · have hstep : processCSSStep fp cu (st, pairs) m
            = ({ st with downloadQueue :=
                  st.downloadQueue ++ [⟨u, getLocalPath u, "asset"⟩] },
               pairs ++ [(m.1, cssReplacement st.outputDir fp u)]) := by
          rw [processCSSStep, hres]
          simp [hmem]
        rw [hstep]
        rcases ih { st with downloadQueue :=
            st.downloadQueue ++ [⟨u, getLocalPath u, "asset"⟩] } _ with ⟨new, hnew⟩
        exact ⟨⟨u, getLocalPath u, "asset"⟩ :: new, by
          rw [hnew]; simp⟩

theorem processCSSCore_state (st : ClonerState) (fp : String) (cu : URLRecord)
    (ms : List (String × String)) :
    ∃ new, (processCSSCore st fp cu ms).1
      = { st with downloadQueue := st.downloadQueue ++ new } :=
  processCSSLoop_state fp cu ms st []

theorem processCSSFileModel_fst (st : ClonerState) (fp : String)
    (cu : URLRecord) (css : String) :
    (processCSSFileModel st fp cu css).1 = (processCSSCore st fp cu (scanCss css)).1 := rfl

theorem step_finishOk_spec {s : ClonerState} {item : WorkItem} {body : String}
    {t : ClonerState} (h : step s (.finishOk item body) = some t) :
    item ∈ s.inFlight ∧
    t.downloadedFiles = setInsert s.downloadedFiles item.url.href ∧
    (∃ new, t.downloadQueue = s.downloadQueue ++ new) ∧
    t.activeDownloads = s.activeDownloads - 1 ∧
    t.inFlight = s.inFlight.erase item ∧
    t.maxConcurrent = s.maxConcurrent ∧
    t.fetchLog = s.fetchLog ∧
    t.outputDir = s.outputDir ∧
    t.dequeuedLog = s.dequeuedLog ∧
    t.baseUrl = s.baseUrl := by
  rw [step] at h
  split_ifs at h with hmem hcss
  · refine ⟨hmem, ?_⟩
    simp only at h
    rw [processCSSFileModel_fst] at h
    rcases processCSSCore_state
        { s with inFlight := s.inFlight.erase item
               , downloadedFiles := setInsert s.downloadedFiles item.url.href }
        (pathJoin s.outputDir item.localPath) item.url (scanCss body) with ⟨new, hnew⟩
    rw [hnew] at h
    rw [← Option.some.inj h]
    exact ⟨rfl, ⟨new, rfl⟩, rfl, rfl, rfl, rfl, rfl, rfl, rfl⟩
  · refine ⟨hmem, ?_⟩
    simp only at h
    rw [← Option.some.inj h]
    exact ⟨rfl, ⟨[], by simp⟩, rfl, rfl, rfl, rfl, rfl, rfl, rfl⟩

theorem step_finishErr_spec {s : ClonerState} {item : WorkItem}
    {t : ClonerState} (h : step s (.finishErr item) = some t) :
    item ∈ s.inFlight ∧
    t = { s with inFlight := s.inFlight.erase item
               , activeDownloads := s.activeDownloads - 1 } := by
  rw [step] at h
  split_ifs at h with hmem
  exact ⟨hmem, (Option.some.inj h).symm⟩

theorem run_cons_eq {s : ClonerState} {a : SchedAction} {rest : List SchedAction}
    {t : ClonerState} (h : run s (a :: rest) = some t) :
    ∃ m, step s a = some m ∧ run m rest = some t := by
  rw [run] at h
  cases hs : step s a with
  | none => rw [hs] at h; cases h
  | some m => rw [hs] at h; exact ⟨m, rfl, h⟩

theorem step_active_bound {s : ClonerState} {a : SchedAction} {t : ClonerState}
    (h : step s a = some t) (hb : s.activeDownloads ≤ s.maxConcurrent) :
    t.activeDownloads ≤ t.maxConcurrent := by
  cases a with
  | startItem =>
    rcases step_start_cases h with ⟨item, rest, hq, hlt, hcase | hcase⟩
    · rw [hcase.2]; exact hb
    · rw [hcase.2]; exact hlt
  | finishOk item body =>
    rcases step_finishOk_spec h with ⟨-, -, -, hact, -, hmax, -⟩
    rw [hact, hmax]
    exact le_trans (Nat.sub_le _ _) hb
  | finishErr item =>
    rcases step_finishErr_spec h with ⟨-, ht⟩
    rw [ht]
    exact le_trans (Nat.sub_le _ _) hb

theorem run_active_bound :
    ∀ (acts : List SchedAction) (s t : ClonerState), run s acts = some t →
      s.activeDownloads ≤ s.maxConcurrent →
      t.activeDownloads ≤ t.maxConcurrent := by
  intro acts
  induction acts with
  | nil =>
    intro s t h hb
    rw [run] at h
    rw [← Option.some.inj h]
    exact hb
  | cons a rest ih =>
    intro s t h hb
    rcases run_cons_eq h with ⟨m, hstep, hrun⟩
    exact ih m t hrun (step_active_bound hstep hb)

theorem run_of_empty {s : ClonerState} (hq : s.downloadQueue = [])
    (hf : s.inFlight = []) :
    ∀ (acts : List SchedAction) (t : ClonerState), run s acts = some t → t = s := by
  intro acts t h
  cases acts with
  | nil =>
    rw [run] at h
    exact (Option.some.inj h).symm
  | cons a rest =>
    rcases run_cons_eq h with ⟨m, hstep, -⟩
    exfalso
    cases a with
    | startItem => rw [step, hq] at hstep; cases hstep
    | finishOk item body => rw [step] at hstep; rw [hf] at hstep; simp at hstep
    | finishErr item => rw [step] at hstep; rw [hf] at hstep; simp at hstep

theorem step_queue_track {s : ClonerState} {a : SchedAction} {t : ClonerState}
    (h : step s a = some t) :
    (∀ it, it ∈ s.downloadQueue → it ∈ t.downloadQueue ∨ it ∈ t.dequeuedLog) ∧
    (∀ it, it ∈ s.dequeuedLog → it ∈ t.dequeuedLog) := by
  cases a with
  | startItem =>
    rcases step_start_cases h with ⟨item, rest, hq, -, hcase | hcase⟩ <;>
      rw [hcase.2] <;>
      constructor <;> intro it hit
    · rw [hq] at hit
      rcases List.mem_cons.mp hit with rfl | hit
      · exact Or.inr (by simp)
      · exact Or.inl hit
    · simp [hit]
    · rw [hq] at hit
      rcases List.mem_cons.mp hit with rfl | hit
      · exact Or.inr (by simp)
      · exact Or.inl hit
    · simp [hit]
  | finishOk item body =>
    rcases step_finishOk_spec h with ⟨-, -, ⟨new, hqe⟩, -, -, -, -, -, hdeq, -⟩
    refine ⟨fun it hit => Or.inl ?_, fun it hit => ?_⟩
    · rw [hqe]; exact List.mem_append_left _ hit
    · rw [hdeq]; exact hit
  | finishErr item =>
    rcases step_finishErr_spec h with ⟨-, ht⟩
    rw [ht]
    exact ⟨fun it hit => Or.inl hit, fun it hit => hit⟩

theorem run_deq_mono :
    ∀ (acts : List SchedAction) (s t : ClonerState), run s acts = some t →
      ∀ it, it ∈ s.dequeuedLog → it ∈ t.dequeuedLog := by
  intro acts
  induction acts with
  | nil =>
    intro s t h it hit
    rw [run] at h
    rw [← Option.some.inj h]
    exact hit
  | cons a rest ih =>
    intro s t h it hit
    rcases run_cons_eq h with ⟨m, hstep, hrun⟩
    exact ih m t hrun it ((step_queue_track hstep).2 it hit)

theorem run_queue_track :
    ∀ (acts : List SchedAction) (s t : ClonerState), run s acts = some t →
      ∀ it, it ∈ s.downloadQueue → it ∈ t.downloadQueue ∨ it ∈ t.dequeuedLog := by
  intro acts
  induction acts with
  | nil =>
    intro s t h it hit
    rw [run] at h
    rw [← Option.some.inj h]
    exact Or.inl hit
  | cons a rest ih =>
    intro s t h it hit
    rcases run_cons_eq h with ⟨m, hstep, hrun⟩
    rcases (step_queue_track hstep).1 it hit with hm | hm
    · exact ih m t hrun it hm
    · exact Or.inr (run_deq_mono rest m t hrun it hm)

/-- Example background-image work item enqueued by the stylesheet. -/
def exBgItem : WorkItem := ⟨⟨"http", "ex.com", "/bg.png", "", ""⟩, "bg.png", "asset"⟩

/-- Example cloner holding one queued stylesheet. -/
def exQueueState : ClonerState := { exState with downloadQueue := [exStyleItem] }

/-- Scheduler state after starting the stylesheet fetch. -/
def exStartedState : ClonerState :=
  { exState with activeDownloads := 1
               , inFlight := [exStyleItem]
               , fetchLog := ["http://ex.com/style.css"]
               , dequeuedLog := [exStyleItem] }

/-- Scheduler state after the stylesheet fetch completes and enqueues
    the `url(bg.png)` reference found in its body. -/
def exCssDoneState : ClonerState :=
  { exState with downloadedFiles := ["http://ex.com/style.css"]
               , downloadQueue := [exBgItem]
               , fetchLog := ["http://ex.com/style.css"]
               , dequeuedLog := [exStyleItem] }

/-- A complete drain of `exQueueState`, including the reference
    discovered inside the stylesheet body. -/
def exDrainActs : List SchedAction :=
  [.startItem, .finishOk exStyleItem "x { b: url(bg.png) }", .startItem,
   .finishOk exBgItem ""]

/-- Scheduler state after the full drain of `exQueueState`. -/
def exDrainedState : ClonerState :=
  { exState with downloadedFiles := ["http://ex.com/style.css", "http://ex.com/bg.png"]
               , fetchLog := ["http://ex.com/style.css", "http://ex.com/bg.png"]
               , dequeuedLog := [exStyleItem, exBgItem] }

/-! ### Claim C3 -/

/-- C3: the constructor sets the concurrency ceiling to 5 and
    `ActiveCount` to 0; the scheduler dequeues (and hence can start a
    fetch) only when `ActiveCount` is strictly below the ceiling; and,
    along every schedulable event sequence, `ActiveCount` never exceeds
    the ceiling — every instant of the drain loop is the end state of
    some prefix of the sequence, so the bound holds at every instant. -/
theorem concurrency_ceiling_invariant :
    (∀ b o, (initCloner b o).maxConcurrent = 5 ∧ (initCloner b o).activeDownloads = 0) ∧
    (∀ s t : ClonerState, step s .startItem = some t →
        s.activeDownloads < s.maxConcurrent) ∧
    (∀ (acts : List SchedAction) (s t : ClonerState), run s acts = some t →
        s.activeDownloads ≤ s.maxConcurrent →
        t.activeDownloads ≤ t.maxConcurrent) := by
  refine ⟨fun b o => ⟨rfl, rfl⟩, ?_, run_active_bound⟩
  intro s t h
  rcases step_start_cases h with ⟨item, rest, hq, hlt, -⟩
  exact hlt

/-- Witness for `concurrency_ceiling_invariant`: after starting the
    queued stylesheet fetch, the active count (1) respects the ceiling
    (5). -/
theorem concurrency_ceiling_invariant_witness :
    exStartedState.activeDownloads ≤ exStartedState.maxConcurrent :=
  concurrency_ceiling_invariant.2.2 [SchedAction.startItem] exQueueState exStartedState
    (by decide) (by decide)

/-! ### Claim C4 -/

/-- C4: the drain loop's guard is false exactly when the queue is empty
    and `ActiveCount` is zero (so the loop terminates only at that
    fixpoint); a completing stylesheet fetch only appends its discovered
    references to the queue; and along any schedulable sequence that
    ends with the guard false, every item queued at any point has been
    dequeued and handled — in particular references enqueued mid-drain
    by a stylesheet are fetched before the clone is reported complete. -/
theorem drain_fixpoint_property :
    (∀ s : ClonerState, loopGuard s = false ↔
        (s.downloadQueue = [] ∧ s.activeDownloads = 0)) ∧
    (∀ (s : ClonerState) (item : WorkItem) (body : String) (t : ClonerState),
        step s (.finishOk item body) = some t →
        ∃ new, t.downloadQueue = s.downloadQueue ++ new) ∧
    (∀ (acts : List SchedAction) (s t : ClonerState), run s acts = some t →
        loopGuard t = false → ∀ it, it ∈ s.downloadQueue → it ∈ t.dequeuedLog) := by
  have hguard : ∀ s : ClonerState, loopGuard s = false ↔
      (s.downloadQueue = [] ∧ s.activeDownloads = 0) := by
    intro s
    rw [loopGuard]
    simp [List.length_eq_zero, Nat.pos_iff_ne_zero]
  refine ⟨hguard, ?_, ?_⟩
  · intro s item body t h
    exact (step_finishOk_spec h).2.2.1
  · intro acts s t hrun hdone it hit
    rcases run_queue_track acts s t hrun it hit with hq | hd
    · rw [((hguard t).mp hdone).1] at hq
      cases hq
    · exact hd

/-- Witness for `drain_fixpoint_property`: completing the stylesheet
    fetch appends the `url(bg.png)` reference to the queue, and after the
    full drain both the stylesheet and the discovered background image
    have been dequeued and handled. -/
theorem drain_fixpoint_property_witness :
    (∃ new, exCssDoneState.downloadQueue = exStartedState.downloadQueue ++ new) ∧
    exStyleItem ∈ exDrainedState.dequeuedLog :=
  ⟨drain_fixpoint_property.2.1 exStartedState exStyleItem "x { b: url(bg.png) }"
      exCssDoneState (by decide),
   drain_fixpoint_property.2.2 exDrainActs exQueueState exDrainedState
      (by decide) (by decide) exStyleItem (by decide)⟩

/-! ### Claim C8 -/

/-- C8: a failing asset download (any rejection of the `downloadAsset`
    promise: timeout, non-2xx status, or write error) changes nothing but
    the in-flight bookkeeping — the queue, the dedup set and the fetch
    log are untouched (no retry), every sibling in-flight item survives —
    and `ActiveCount` is decremented; a successful download decrements it
    as well, so the decrement happens regardless of outcome. -/
theorem asset_failure_isolated :
    (∀ (s : ClonerState) (item : WorkItem) (t : ClonerState),
        step s (.finishErr item) = some t →
        t.downloadQueue = s.downloadQueue ∧
        t.downloadedFiles = s.downloadedFiles ∧
        t.fetchLog = s.fetchLog ∧
        t.activeDownloads = s.activeDownloads - 1 ∧
        t.maxConcurrent = s.maxConcurrent ∧
        (∀ j, j ∈ s.inFlight → j ≠ item → j ∈ t.inFlight)) ∧
    (∀ (s : ClonerState) (item : WorkItem) (body : String) (t : ClonerState),
        step s (.finishOk item body) = some t →
        t.activeDownloads = s.activeDownloads - 1) := by
  constructor
  · intro s item t h
    rcases step_finishErr_spec h with ⟨-, ht⟩
    rw [ht]
    refine ⟨rfl, rfl, rfl, rfl, rfl, ?_⟩
    intro j hj hne
    exact (List.mem_erase_of_ne hne).mpr hj
  · intro s item body t h
    exact (step_finishOk_spec h).2.2.2.1

/-- Witness for `asset_failure_isolated`: failing the in-flight
    stylesheet fetch leaves queue, dedup set and fetch log unchanged and
    decrements the active count from 1 to 0. -/
theorem asset_failure_isolated_witness :
    ({ exState with fetchLog := ["http://ex.com/style.css"]
                  , dequeuedLog := [exStyleItem] } : ClonerState).downloadQueue
        = exStartedState.downloadQueue ∧
    ({ exState with fetchLog := ["http://ex.com/style.css"]
                  , dequeuedLog := [exStyleItem] } : ClonerState).activeDownloads
        = exStartedState.activeDownloads - 1 :=
  ⟨(asset_failure_isolated.1 exStartedState exStyleItem _ (by decide)).1,
   (asset_failure_isolated.1 exStartedState exStyleItem _ (by decide)).2.2.2.1⟩

/-! ### Claim C1 -/

theorem setInsert_self_mem (l : List String) (x : String) : x ∈ setInsert l x := by
  rw [setInsert]
  split_ifs with h
  · exact h
  · simp

theorem processAssetStep_downloadedFiles (p : URLRecord)
    (acc : ClonerState × List Element) (a : String × String × Nat) :
    (processAssetStep p acc a).1.downloadedFiles = acc.1.downloadedFiles := by
  cases hres : resolveRef a.2.1 p with
  | none => rw [processAssetStep, hres]
  | some u =>
    rw [processAssetStep, hres]
    simp only
    split_ifs <;> rfl

theorem processAssetsLoop_downloadedFiles :
    ∀ (assets : List (String × String × Nat)) (st : ClonerState)
      (doc : List Element) (p : URLRecord),
      (processAssetsLoop st doc p assets).1.downloadedFiles = st.downloadedFiles := by
  intro assets
  induction assets with
  | nil => intro st doc p; rfl
  | cons a rest ih =>
    intro st doc p
    rw [processAssetsLoop, List.foldl_cons]
    calc (List.foldl (processAssetStep p) (processAssetStep p (st, doc) a) rest).1.downloadedFiles
        = (processAssetStep p (st, doc) a).1.downloadedFiles := ih _ _ p
      _ = st.downloadedFiles := processAssetStep_downloadedFiles p (st, doc) a

/-- C1 (amended): the enqueue path of `processAssets` checks
    `DownloadedSet` but never inserts into it — insertion happens only
    when a download completes (`downloadAsset` marks the set after the
    write). Consequently a duplicate queue entry is possible; the start
    of `downloadAsset` skips an item (no network fetch) exactly when its
    canonical URL is already in the set, and fetches it otherwise — so a
    duplicate is avoided only when an earlier fetch of the same URL has
    completed before the duplicate starts. -/
theorem dedup_inserted_at_completion :
    (∀ (assets : List (String × String × Nat)) (st : ClonerState)
        (doc : List Element) (p : URLRecord),
        (processAssetsLoop st doc p assets).1.downloadedFiles = st.downloadedFiles) ∧
    (∀ (s : ClonerState) (item : WorkItem) (body : String) (t : ClonerState),
        step s (.finishOk item body) = some t →
        item.url.href ∈ t.downloadedFiles) ∧
    (∀ (s t : ClonerState) (item : WorkItem) (rest : List WorkItem),
        step s .startItem = some t → s.downloadQueue = item :: rest →
        item.url.href ∈ s.downloadedFiles → t.fetchLog = s.fetchLog) ∧
    (∀ (s t : ClonerState) (item : WorkItem) (rest : List WorkItem),
        step s .startItem = some t → s.downloadQueue = item :: rest →
        item.url.href ∉ s.downloadedFiles →
        t.fetchLog = s.fetchLog ++ [item.url.href]) := by
  refine ⟨processAssetsLoop_downloadedFiles, ?_, ?_, ?_⟩
  · intro s item body t h
    rcases step_finishOk_spec h with ⟨-, hdf, -⟩
    rw [hdf]
    exact setInsert_self_mem _ _
  · intro s t item rest h hq hmem
    rcases step_start_cases h with ⟨item2, rest2, hq2, -, hcase | hcase⟩
    · rw [hcase.2]
    · rw [hq] at hq2
      cases hq2
      exact absurd hmem hcase.1
  · intro s t item rest h hq hmem
    rcases step_start_cases h with ⟨item2, rest2, hq2, -, hcase | hcase⟩
    · rw [hq] at hq2
      cases hq2
      exact absurd hcase.1 hmem
    · rw [hq] at hq2
      cases hq2
      rw [hcase.2]

/-- C1 counterexample: a page with two stylesheet elements referencing
    the same URL. After `processAssets`, `DownloadedSet` is still empty
    (nothing was inserted at enqueue time) and the queue holds two
    entries for the same canonical URL; starting both immediately (as the
    fire-and-continue loop does while neither has completed) issues two
    network fetches of that URL and keeps both in flight — refuting
    "admits the URL at most once", "exactly one network fetch", and
    "inserted into DownloadedSet at enqueue time". -/
theorem dup_enqueue_double_fetch_cex :
    (processAssets exState [exLink, exLink] exPage).1.downloadedFiles = [] ∧
    (processAssets exState [exLink, exLink] exPage).1.downloadQueue
        = [exStyleItem, exStyleItem] ∧
    (run (processAssets exState [exLink, exLink] exPage).1
        [.startItem, .startItem]).map (fun t => (t.fetchLog, t.inFlight))
      = some (["http://ex.com/style.css", "http://ex.com/style.css"],
              [exStyleItem, exStyleItem]) := by
  decide

/-- Scheduler state after starting the first of two duplicate queue
    entries. -/
def exDupStartedState : ClonerState :=
  { exState with downloadQueue := [exStyleItem]
               , activeDownloads := 1
               , inFlight := [exStyleItem]
               , fetchLog := ["http://ex.com/style.css"]
               , dequeuedLog := [exStyleItem] }

/-- Scheduler state after fetching and completing the first duplicate. -/
def exDupDoneState : ClonerState :=
  { exState with downloadedFiles := ["http://ex.com/style.css"]
               , downloadQueue := [exStyleItem]
               , fetchLog := ["http://ex.com/style.css"]
               , dequeuedLog := [exStyleItem] }

/-- Scheduler state after the second duplicate is dequeued and skipped. -/
def exDupSkipState : ClonerState :=
  { exState with downloadedFiles := ["http://ex.com/style.css"]
               , fetchLog := ["http://ex.com/style.css"]
               , dequeuedLog := [exStyleItem, exStyleItem] } 

/-- Witness for `dedup_inserted_at_completion`: completing the first
    fetch inserts the canonical URL, and the serialized second start of
    the same URL is skipped — the fetch log stays a single entry. -/
theorem dedup_inserted_at_completion_witness :
    exStyleUrl.href ∈ exDupDoneState.downloadedFiles ∧
    exDupSkipState.fetchLog = exDupDoneState.fetchLog :=
  ⟨dedup_inserted_at_completion.2.1 exDupStartedState exStyleItem "" exDupDoneState
      (by decide),
   dedup_inserted_at_completion.2.2.1 exDupDoneState exDupSkipState exStyleItem []
      (by decide) (by decide) (by decide)⟩

/-! ### Claim C2 -/

/-- C2 (amended): when the entry-page fetch fails, `downloadPage`
    catches and only logs the error, so the clone continues: no page file
    is written, the queue stays empty so no asset fetch is ever issued by
    any schedulable drain, the output directory is still created — and
    `clone` reports completion (success), not failure, to the caller. -/
theorem entry_failure_swallowed :
    ∀ (b : URLRecord) (o : String) (drain : List SchedAction) (r : CloneResult),
      cloneModel b o none drain = some r →
      r.pageWrites = [] ∧ r.finalState.fetchLog = [] ∧
      r.finalState.downloadQueue = [] ∧ r.reportedSuccess = true ∧
      r.dirCreated = true := by
  intro b o drain r h
  rw [cloneModel] at h
  simp only [downloadPage] at h
  cases hrun : run (initCloner b o) drain with
  | none => rw [hrun] at h; cases h
  | some st2 =>
    rw [hrun] at h
    have hst2 : st2 = initCloner b o := run_of_empty rfl rfl drain st2 hrun
    rw [← Option.some.inj h]
    subst hst2
    exact ⟨rfl, rfl, rfl, rfl, rfl⟩

/-- C2 counterexample: with the entry URL failing (e.g. HTTP 404), the
    clone still reports success — `clone()` prints the completion message
    after `downloadPage` swallowed the error — refuting "reports failure
    to the caller" (while the "no asset fetches" and "no contents" parts
    do hold). -/
theorem entry_failure_reports_success_cex :
    (cloneModel exPage "./out" none []).map CloneResult.reportedSuccess = some true ∧
    (cloneModel exPage "./out" none []).map CloneResult.pageWrites = some [] := by
  decide

/-- Witness for `entry_failure_swallowed` at a concrete failed clone. -/
theorem entry_failure_swallowed_witness :
    ({ finalState := initCloner exPage "./out"
     , dirCreated := true
     , pageWrites := []
     , reportedSuccess := true } : CloneResult).pageWrites = [] ∧
    ({ finalState := initCloner exPage "./out"
     , dirCreated := true
     , pageWrites := []
     , reportedSuccess := true } : CloneResult).reportedSuccess = true := by
  have h := entry_failure_swallowed exPage "./out" []
    { finalState := initCloner exPage "./out"
    , dirCreated := true
    , pageWrites := []
    , reportedSuccess := true } (by decide)
  exact ⟨h.1, h.2.2.2.1⟩

/-! ### Claim C9 -/

/-- C9: a candidate reference whose raw URL fails to parse (the `catch`
    around `new URL`) contributes nothing — it is skipped and the
    download loop over the remaining references is exactly the loop
    without it, so extraction and rewriting of the other references in
    the same pass are unaffected. -/
theorem invalid_reference_skipped :
    ∀ (st : ClonerState) (doc : List Element) (p : URLRecord)
      (xs ys : List (String × String × Nat)) (bad : String × String × Nat),
      resolveRef bad.2.1 p = none →
      processAssetsLoop st doc p (xs ++ bad :: ys)
        = processAssetsLoop st doc p (xs ++ ys) := by
  intro st doc p xs ys bad hbad
  rw [processAssetsLoop, processAssetsLoop, List.foldl_append, List.foldl_append,
    List.foldl_cons]
  have hskip : ∀ acc : ClonerState × List Element,
      processAssetStep p acc bad = acc := by
    intro acc
    rw [processAssetStep, hbad]
  rw [hskip]

/-- Witness for `invalid_reference_skipped`: a malformed `http://`
    reference between two valid ones leaves the loop's outcome
    unchanged. -/
theorem invalid_reference_skipped_witness :
    processAssetsLoop exState [exLink, exImg] exPage
        ([("css", "style.css", 0)] ++ ("js", "http://", 1) :: [("img", "a.png", 1)])
      = processAssetsLoop exState [exLink, exImg] exPage
          ([("css", "style.css", 0)] ++ [("img", "a.png", 1)]) :=
  invalid_reference_skipped exState [exLink, exImg] exPage
    [("css", "style.css", 0)] [("img", "a.png", 1)] ("js", "http://", 1) (by decide)

/-! ### Claim C7 -/

theorem find_setAttrList_self (n v : String) :
    ∀ l : List (String × String),
      ((setAttrList n v l).find? (fun kv => kv.1 == n)).map (fun kv => kv.2)
        = some v := by
  intro l
  induction l with
  | nil =>
    simp only [setAttrList]
    rw [List.find?_cons_of_pos _ (by simp)]
    rfl
  | cons kv rest ih =>
    obtain ⟨k, w⟩ := kv
    by_cases h : k = n
    · subst h
      simp only [setAttrList, eq_self_iff_true, if_true]
      rw [List.find?_cons_of_pos _ (by simp)]
      rfl
    · simp only [setAttrList, if_neg h]
      rw [List.find?_cons_of_neg _ (by simpa using h)]
      exact ih

theorem find_setAttrList_ne {n m : String} (hmn : m ≠ n) (v : String) :
    ∀ l : List (String × String),
      (setAttrList n v l).find? (fun kv => kv.1 == m)
        = l.find? (fun kv => kv.1 == m) := by
  intro l
  induction l with
  | nil =>
    simp only [setAttrList]
    rw [List.find?_cons_of_neg _ (by simpa using Ne.symm hmn)]
  | cons kv rest ih =>
    obtain ⟨k, w⟩ := kv
    by_cases h : k = n
    · subst h
      simp only [setAttrList, eq_self_iff_true, if_true]
      rw [List.find?_cons_of_neg _ (by simpa using Ne.symm hmn),
        List.find?_cons_of_neg _ (by simpa using Ne.symm hmn)]
    · simp only [setAttrList, if_neg h]
      by_cases hkm : k = m
      · subst hkm
        rw [List.find?_cons_of_pos _ (by simp), List.find?_cons_of_pos _ (by simp)]
      · rw [List.find?_cons_of_neg _ (by simpa using hkm),
          List.find?_cons_of_neg _ (by simpa using hkm)]
        exact ih

theorem getAttr_setAttr_self (e : Element) (n v : String) :
    getAttr (setAttr e n v) n = some v := by
  rw [getAttr, setAttr]
  exact find_setAttrList_self n v e.attrs

theorem getAttr_setAttr_ne (e : Element) {n m : String} (h : m ≠ n) (v : String) :
    getAttr (setAttr e n v) m = getAttr e m := by
  rw [getAttr, setAttr, getAttr]
  simp only
  rw [find_setAttrList_ne h v e.attrs]

theorem modifyIdx_get_self (f : Element → Element) :
    ∀ (doc : List Element) (i : Nat) (e : Element), doc.get? i = some e →
      (modifyIdx f i doc).get? i = some (f e) := by
  intro doc
  induction doc with
  | nil => intro i e h; cases h
  | cons x xs ih =>
    intro i e h
    cases i with
    | zero =>
      rw [List.get?] at h
      rw [modifyIdx, List.get?]
      rw [Option.some.inj h]
    | succ n =>
      rw [List.get?] at h
      rw [modifyIdx, List.get?]
      exact ih n e h

theorem modifyIdx_get_ne (f : Element → Element) :
    ∀ (doc : List Element) (i j : Nat), j ≠ i →
      (modifyIdx f i doc).get? j = doc.get? j := by
  intro doc
  induction doc with
  | nil => intro i j hne; cases i <;> rfl
  | cons x xs ih =>
    intro i j hne
    cases i with
    | zero =>
      cases j with
      | zero => exact absurd rfl hne
      | succ m => rfl
    | succ n =>
      cases j with
      | zero => rfl
      | succ m =>
        rw [modifyIdx, List.get?, List.get?]
        exact ih n m (by omega)

/-- C7 (amended): the Rewriter sets stylesheet `href`, script `src` and
    image `src` to `'./' + localPath`; a qualifying same-origin
    hyperlink's `href` is set to `'./' + getLocalPath u`; the written
    value is a pure function of the resolved URL, so rewriting the same
    absolute URL twice yields the same relative string; elements at other
    indices are untouched; and an image `src`-update never touches the
    `srcset` attribute — `srcset` entries are downloaded but their
    attribute is never rewritten (each entry instead overwrites `src`,
    refuting the claim's srcset part; see the counterexample). -/
theorem rewriter_attribute_behaviour :
    (∀ (doc : List Element) (i : Nat) (e : Element) (lp : String),
        doc.get? i = some e →
        (updateAssetReference doc "css" i lp).get? i
            = some (setAttr e "href" ("./" ++ lp)) ∧
        (updateAssetReference doc "js" i lp).get? i
            = some (setAttr e "src" ("./" ++ lp)) ∧
        (updateAssetReference doc "img" i lp).get? i
            = some (setAttr e "src" ("./" ++ lp))) ∧
    (∀ (doc : List Element) (ty : String) (i j : Nat) (lp : String), j ≠ i →
        (updateAssetReference doc ty i lp).get? j = doc.get? j) ∧
    (∀ (e : Element) (v : String),
        getAttr (setAttr e "src" v) "srcset" = getAttr e "srcset") ∧
    (∀ (base page : URLRecord) (e : Element) (h : String) (u : URLRecord),
        e.tag = "a" → getAttr e "href" = some h →
        (h ≠ "" ∧ ¬"#".toList.isPrefixOf h.toList
           ∧ ¬"mailto:".toList.isPrefixOf h.toList
           ∧ ¬"tel:".toList.isPrefixOf h.toList) →
        resolveRef h page = some u → u.origin = base.origin →
        rewriteLinkElem base page e = setAttr e "href" ("./" ++ getLocalPath u)) ∧
    (∀ (st : ClonerState) (doc : List Element) (page : URLRecord)
        (a : String × String × Nat) (u : URLRecord),
        resolveRef a.2.1 page = some u →
        (processAssetStep page (st, doc) a).2
          = updateAssetReference doc a.1 a.2.2 (getLocalPath u)) := by
  refine ⟨?_, ?_, ?_, ?_, ?_⟩
  · intro doc i e lp hget
    refine ⟨?_, ?_, ?_⟩ <;>
      · rw [updateAssetReference]
        simp only [reduceIte]
        exact modifyIdx_get_self _ doc i e hget
  · intro doc ty i j lp hne
    rw [updateAssetReference]
    split_ifs <;> first
      | exact modifyIdx_get_ne _ doc i j hne
      | rfl
  · intro e v
    exact getAttr_setAttr_ne e (by decide) v
  · intro base page e h u htag bhref hcond hres horig
    rw [rewriteLinkElem, if_pos htag, bhref]
    simp only
    rw [if_pos hcond, hres]
    simp only
    rw [if_pos horig]
  · intro st doc page a u hres
    rw [processAssetStep, hres]

/-- C7 counterexample: an image with `src="a.png"` and
    `srcset="b.png 1x, c.png 2x"` — after `processAssets`, the `srcset`
    attribute is unchanged (its entries were never rewritten) and the
    `src` attribute has been overwritten by the last `srcset` entry's
    local path, refuting "mutates ... each entry of image srcset". -/
theorem srcset_not_rewritten_cex :
    (processAssets exState [exImg] exPage).2
        = [⟨"img", [("src", "./c.png"), ("srcset", "b.png 1x, c.png 2x")]⟩] ∧
    (getAttr ⟨"img", [("src", "./c.png"), ("srcset", "b.png 1x, c.png 2x")]⟩ "srcset"
        = some "b.png 1x, c.png 2x") := by
  decide

/-- Witness for `rewriter_attribute_behaviour`: the stylesheet link's
    `href` is rewritten to `./style.css`, and the same-origin anchor's
    `href` to `./about.html`. -/
theorem rewriter_attribute_behaviour_witness :
    (updateAssetReference [exLink] "css" 0 "style.css").get? 0
        = some (setAttr exLink "href" ("./" ++ "style.css")) ∧
    rewriteLinkElem exPage exPage exAnchor
        = setAttr exAnchor "href"
            ("./" ++ getLocalPath ⟨"http", "ex.com", "/about", "", ""⟩) :=
  ⟨((rewriter_attribute_behaviour.1 [exLink] 0 exLink "style.css") (by decide)).1,
   rewriter_attribute_behaviour.2.2.2.1 exPage exPage exAnchor "/about"
      ⟨"http", "ex.com", "/about", "", ""⟩ (by decide) (by decide)
      (by refine ⟨by decide, by decide, by decide, by decide⟩) (by decide) (by decide)⟩

/-! ### Claim C6 -/

theorem normStep_clean {s : String} (hs : segClean s = true) (stack : List String) :
    normStep stack s = s :: stack := by
  rw [segClean] at hs
  simp only [decide_eq_true_eq] at hs
  push_neg at hs
  rw [normStep.eq_def, if_neg (by tauto), if_neg hs.2.2]

theorem pushAll :
    ∀ (t : List String), cleanSegs t = true →
      ∀ base, t.foldl normStep base = t.reverse ++ base := by
  intro t
  induction t with
  | nil => intro ht base; simp
  | cons s rest ih =>
    intro ht base
    rw [cleanSegs, List.all_cons, Bool.and_eq_true] at ht
    rw [List.foldl_cons, normStep_clean ht.1, ih ht.2 (s :: base)]
    simp

theorem popAll :
    ∀ (l : List String), cleanSegs l = true →
      ∀ base, (List.replicate l.length "..").foldl normStep (l ++ base) = base := by
  intro l
  induction l with
  | nil => intro hl base; simp
  | cons s rest ih =>
    intro hl base
    rw [cleanSegs, List.all_cons, Bool.and_eq_true] at hl
    rw [List.length_cons, List.replicate_succ, List.foldl_cons]
    have hclean := hl.1
    rw [segClean] at hclean
    simp only [decide_eq_true_eq] at hclean
    push_neg at hclean
    have hstep : normStep (s :: (rest ++ base)) ".." = rest ++ base := by
      rw [normStep.eq_def, if_neg (by simp), if_pos rfl]
      simp only
      rw [if_neg hclean.2.2]
    rw [List.cons_append, hstep]
    exact ih hl.2 base

theorem cleanSegs_reverse (l : List String) :
    cleanSegs l.reverse = cleanSegs l := by
  rw [cleanSegs, cleanSegs, List.all_reverse]

theorem relSegs_navigate_aux :
    ∀ (f t base : List String), cleanSegs f = true → cleanSegs t = true →
      (relSegs f t).foldl normStep (f.reverse ++ base) = t.reverse ++ base := by
  intro f
  induction f with
  | nil =>
    intro t base hf ht
    cases t with
    | nil =>
      have hrel : relSegs [] [] = ([] : List String) := rfl
      rw [hrel]
      simp
    | cons b ts =>
      have hrel : relSegs [] (b :: ts) = b :: ts := rfl
      rw [hrel]
      simpa using pushAll (b :: ts) ht base
  | cons a fs ih =>
    intro t base hf ht
    rw [cleanSegs, List.all_cons, Bool.and_eq_true] at hf
    cases t with
    | nil =>
      show (List.replicate (a :: fs).length "..").foldl normStep
          ((a :: fs).reverse ++ base) = [].reverse ++ base
      have hrev : cleanSegs (a :: fs).reverse = true := by
        rw [cleanSegs_reverse, cleanSegs, List.all_cons, Bool.and_eq_true]
        exact hf
      have hlen : (a :: fs).length = (a :: fs).reverse.length := by simp
      rw [hlen]
      simpa using popAll (a :: fs).reverse hrev base
    | cons b ts =>
      rw [cleanSegs, List.all_cons, Bool.and_eq_true] at ht
      show (if a = b then relSegs fs ts
            else List.replicate (fs.length + 1) ".." ++ (b :: ts)).foldl normStep
          ((a :: fs).reverse ++ base) = (b :: ts).reverse ++ base
      by_cases hab : a = b
      · rw [if_pos hab]
        have h1 : (a :: fs).reverse ++ base = fs.reverse ++ (a :: base) := by simp
        have h2 : (b :: ts).reverse ++ base = ts.reverse ++ (b :: base) := by simp
        rw [h1, h2, ← hab]
        exact ih ts (a :: base) (by rw [cleanSegs]; exact hf.2)
          (by rw [cleanSegs]; exact ht.2)
      · rw [if_neg hab, List.foldl_append]
        have hrev : cleanSegs (a :: fs).reverse = true := by
          rw [cleanSegs_reverse, cleanSegs, List.all_cons, Bool.and_eq_true]
          exact hf
        have hlen : fs.length + 1 = (a :: fs).reverse.length := by simp
        rw [hlen, popAll (a :: fs).reverse hrev base]
        have hbts : cleanSegs (b :: ts) = true := by
          rw [cleanSegs, List.all_cons, Bool.and_eq_true]
          exact ht
        exact pushAll (b :: ts) hbts base

/-- Interpreting the relative walk `relSegs d t` from the base directory
    `d` lands exactly on `t`, for clean segment lists. -/
theorem navigate_relSegs (d t : List String) (hd : cleanSegs d = true)
    (ht : cleanSegs t = true) : navigate d (relSegs d t) = t := by
  rw [navigate]
  have h := relSegs_navigate_aux d t [] hd ht
  rw [List.append_nil, List.append_nil] at h
  rw [h, List.reverse_reverse]

/-- The `(whole match, replacement)` pairs of the CSS loop, as a pure
    function of the match list. -/
def cssPairsOf (outputDir filePath : String) (cssUrl : URLRecord)
    (ms : List (String × String)) : List (String × String) :=
  ms.filterMap (fun m => (resolveRef m.2 cssUrl).map
    (fun u => (m.1, cssReplacement outputDir filePath u)))

theorem processCSSLoop_pairs (fp : String) (cu : URLRecord) :
    ∀ (ms : List (String × String)) (st : ClonerState)
      (pairs : List (String × String)),
      (List.foldl (processCSSStep fp cu) (st, pairs) ms).2
        = pairs ++ cssPairsOf st.outputDir fp cu ms := by
  intro ms
  induction ms with
  | nil => intro st pairs; simp [cssPairsOf]
  | cons m rest ih =>
    intro st pairs
    rw [List.foldl_cons]
    cases hres : resolveRef m.2 cu with
    | none =>
      have hstep : processCSSStep fp cu (st, pairs) m = (st, pairs) := by
        rw [processCSSStep, hres]
      rw [hstep, ih st pairs]
      simp [cssPairsOf, List.filterMap_cons, hres]
    | some u =>
      by_cases hmem : u.href ∈ st.downloadedFiles
      · have hstep : processCSSStep fp cu (st, pairs) m
            = (st, pairs ++ [(m.1, cssReplacement st.outputDir fp u)]) := by
          rw [processCSSStep, hres]
          simp [hmem]
        rw [hstep, ih st _]
        simp [cssPairsOf, List.filterMap_cons, hres]
      · have hstep : processCSSStep fp cu (st, pairs) m
            = ({ st with downloadQueue :=
                   st.downloadQueue ++ [⟨u, getLocalPath u, "asset"⟩] },
               pairs ++ [(m.1, cssReplacement st.outputDir fp u)]) := by
          rw [processCSSStep, hres]
          simp [hmem]
        rw [hstep, ih _ _]
        simp [cssPairsOf, List.filterMap_cons, hres]

theorem processCSSCore_pairs (st : ClonerState) (fp : String) (cu : URLRecord)
    (ms : List (String × String)) :
    (processCSSCore st fp cu ms).2 = cssPairsOf st.outputDir fp cu ms := by
  rw [processCSSCore, processCSSLoop_pairs]
  rfl

/-- Example canonical URL of a stylesheet in a subdirectory. -/
def exCssUrl : URLRecord := ⟨"http", "ex.com", "/css/style.css", "", ""⟩

/-- C6: every replacement `processCSSFile` applies to a matched `url()`
    reference is `cssReplacement`, i.e.
    `url("path.relative(path.dirname(filePath), path.join(outputDir,
    localPath))")` — a path expressed relative to the stylesheet's own
    on-disk location and computed from the referenced asset's resolved
    local path; and such a relative walk is correct: interpreted from the
    stylesheet's directory it lands exactly on the asset's on-disk
    location (`navigate`/`relSegs` correctness), not on a path relative
    to the output root. -/
theorem css_rewrite_relative_to_stylesheet :
    (∀ (st : ClonerState) (fp : String) (cu : URLRecord) (css : String)
        (pr : String × String), pr ∈ (processCSSCore st fp cu (scanCss css)).2 →
        ∃ m u, m ∈ scanCss css ∧ pr.1 = m.1 ∧ resolveRef m.2 cu = some u ∧
          pr.2 = cssReplacement st.outputDir fp u) ∧
    (∀ d t : List String, cleanSegs d = true → cleanSegs t = true →
        navigate d (relSegs d t) = t) := by
  constructor
  · intro st fp cu css pr hpr
    rw [processCSSCore_pairs] at hpr
    rcases List.mem_filterMap.mp hpr with ⟨m, hm, hfm⟩
    rcases Option.map_eq_some'.mp hfm with ⟨u, hres, hequ⟩
    exact ⟨m, u, hm, by rw [← hequ], hres, by rw [← hequ]⟩
  · exact navigate_relSegs

/-- Witness for `css_rewrite_relative_to_stylesheet`: the single
    `url(../img/bg.png)` reference of a stylesheet at
    `cloned-site/css/style.css` is rewritten to `cssReplacement`, and the
    walk from `cloned-site/css` to `cloned-site/img/bg.png` is correct. -/
theorem css_rewrite_relative_to_stylesheet_witness :
    (∃ m u, m ∈ scanCss "b { x: url(../img/bg.png) }" ∧
        ("url(../img/bg.png)" : String) = m.1 ∧
        resolveRef m.2 exCssUrl = some u ∧
        (String.mk ("url(".toList ++ Char.ofNat 34 :: "../img/bg.png".toList
            ++ [Char.ofNat 34, ')']) : String)
          = cssReplacement exState.outputDir "cloned-site/css/style.css" u) ∧
    navigate ["cloned-site", "css"]
        (relSegs ["cloned-site", "css"] ["cloned-site", "img", "bg.png"])
      = ["cloned-site", "img", "bg.png"] :=
  ⟨css_rewrite_relative_to_stylesheet.1 exState "cloned-site/css/style.css"
      exCssUrl "b { x: url(../img/bg.png) }"
      ("url(../img/bg.png)",
       String.mk ("url(".toList ++ Char.ofNat 34 :: "../img/bg.png".toList
          ++ [Char.ofNat 34, ')'])) (by decide),
   css_rewrite_relative_to_stylesheet.2 ["cloned-site", "css"]
      ["cloned-site", "img", "bg.png"] (by decide) (by decide)⟩
